import Mathlib

/-!
Shallow embedding of the callix template-rendering and request-execution
pipeline (src/template.rs, src/request.rs, src/client.rs, src/error.rs,
src/config.rs), together with theorems settling the specification claims.

Strings are modelled as `List Char`; on the ASCII inputs the source works
with, Rust byte indices and character indices coincide.  Rust code that
can abort the process (an out-of-bounds slice) is modelled by an explicit
`panic` outcome rather than by an error value.
-/

namespace Callix

/-- Rust `str::starts_with`: `startsWith pat s` is true when `pat` is a
prefix of `s`. -/
def startsWith : List Char → List Char → Bool
  | [], _ => true
  | _ :: _, [] => false
  | p :: ps, c :: cs => p == c && startsWith ps cs

/-- Rust `str::contains` for a string pattern: substring occurrence. -/
def containsSub (pat : List Char) : List Char → Bool
  | [] => pat.isEmpty
  | c :: rest => startsWith pat (c :: rest) || containsSub pat rest

/-- Rust `str::find` for a string pattern: index of the first occurrence. -/
def findSub (pat : List Char) : List Char → Option Nat
  | [] => if pat.isEmpty then some 0 else none
  | c :: rest =>
    if startsWith pat (c :: rest) then some 0
    else (findSub pat rest).map fun n => n + 1

/-- Rust `str::replace`, with an explicit recursion budget so that the
definition is structural and hence kernel-computable.  Every step consumes
at least one character of `s`, so a budget of `s.length` (what
`replaceAll` passes) never runs out and the `0` fallback is unreachable
for the actual entry point. -/
def replaceAllFuel (pat rep : List Char) : Nat → List Char → List Char
  | _, [] => []
  | 0, s => s
  | fuel + 1, c :: rest =>
    if startsWith pat (c :: rest) then
      rep ++ replaceAllFuel pat rep fuel (rest.drop (pat.length - 1))
    else
      c :: replaceAllFuel pat rep fuel rest

/-- Rust `str::replace`: replace every non-overlapping occurrence of
`pat`, scanning left to right; the replacement text is not rescanned.
The source only calls this with nonempty patterns, so the behaviour on an
empty pattern is irrelevant. -/
def replaceAll (pat rep s : List Char) : List Char :=
  replaceAllFuel pat rep s.length s

/-- serde_json `Value`, the dynamically typed variable values used by the
source (`HashMap<String, Value>`).  JSON numbers are modelled as integers;
no claim exercises floating-point formatting. -/
inductive Value : Type
  | str (s : String)
  | num (n : Int)
  | bool (b : Bool)
  | null
  | arr (items : List Value)
  | obj (fields : List (String × Value))

/-- Escaping inside serde_json string literals: quotes and backslashes.
No claim exercises the remaining escape classes. -/
def jsonEscape : List Char → List Char
  | [] => []
  | c :: rest =>
    if c == '"' || c == '\\' then '\\' :: c :: jsonEscape rest
    else c :: jsonEscape rest

mutual

/-- Compact `serde_json::to_string` of a `Value` (no spaces, field order
preserved). -/
def jsonSerialize : Value → List Char
  | .str s => '"' :: (jsonEscape s.toList ++ ['"'])
  | .num n => (toString n).toList
  | .bool b => (toString b).toList
  | .null => "null".toList
  | .arr items => '[' :: (jsonSerializeItems items ++ [']'])
  | .obj fields => '\x7b' :: (jsonSerializeFields fields ++ ['\x7d'])

/-- Comma-separated serialization of a JSON array's items. -/
def jsonSerializeItems : List Value → List Char
  | [] => []
  | [v] => jsonSerialize v
  | v :: rest => jsonSerialize v ++ ',' :: jsonSerializeItems rest

/-- Comma-separated serialization of a JSON object's fields. -/
def jsonSerializeFields : List (String × Value) → List Char
  | [] => []
  | [(k, v)] => '"' :: (jsonEscape k.toList ++ '"' :: ':' :: jsonSerialize v)
  | (k, v) :: rest =>
    '"' :: (jsonEscape k.toList ++ '"' :: ':' :: jsonSerialize v) ++
      ',' :: jsonSerializeFields rest

end

/-- CallixError (src/error.rs).  `httpError` carries the transport error's
message; `reqwest::Error` itself is opaque to this layer. -/
inductive CallixError : Type
  | configNotFound (path : String)
  | invalidConfig (msg : String)
  | providerNotFound (name : String)
  | endpointNotFound (name : String)
  | httpError (msg : String)
  | templateError (msg : String)
  | serializationError (msg : String)
  | timeoutError
  | maxRetriesExceeded
  | invalidMethod (method : String)
  deriving DecidableEq

/-- Outcome of running Rust code that may return `Err` or abort the
process with a panic. -/
inductive RunResult (α : Type) : Type
  | ok (a : α)
  | err (e : CallixError)
  | panic
  deriving DecidableEq

/-- TemplateEngine::value_to_string (src/template.rs lines 25-35).  The
serde serialization of arrays and objects cannot fail on this `Value`
type, so the `map_err` branch of the source is unreachable and the
function is total. -/
def value_to_string : Value → List Char
  | .str s => s.toList
  | .num n => (toString n).toList
  | .bool b => (toString b).toList
  | .null => "null".toList
  | .arr items => jsonSerialize (.arr items)
  | .obj fields => jsonSerialize (.obj fields)

/-- Rust slice `text[a..b]` on the `List Char` model.  The panic the
slice raises when `a > b` is accounted for separately at the call site. -/
def sliceRange (text : List Char) (a b : Nat) : List Char :=
  (text.drop a).take (b - a)

/-- TemplateEngine::validate_no_missing_vars (src/template.rs lines
37-48).  Both `unwrap`s are safe because `contains` implies `find` is
`Some` (the `getD 0` defaults are never used).  When the first closing
delimiter sits before the first opening one, the Rust slice
`text[start+2..end]` has its start beyond its end and the process panics:
the `panic` outcome. -/
def validate_no_missing_vars (text : List Char) : RunResult Unit :=
  if containsSub ("\x7b\x7b".toList) text && containsSub ("\x7d\x7d".toList) text then
    let start := (findSub ("\x7b\x7b".toList) text).getD 0
    let stop := (findSub ("\x7d\x7d".toList) text).getD 0
    if start + 2 ≤ stop then
      .err (.templateError (String.mk (("Missing variable: ".toList) ++
        sliceRange text (start + 2) stop)))
    else
      .panic
  else
    .ok ()

/-- The variable `HashMap<String, Value>`, modelled as its iteration
sequence: an association list in the order Rust's map yields entries. -/
abbrev VarList := List (String × Value)

/-- Loop body of TemplateEngine::render (src/template.rs lines 11-18):
fold over the variable map's iteration order; for each key that is
contained, every occurrence of the exact placeholder (no trimming) is
replaced by the value's textual form. -/
def render_loop : VarList → List Char → List Char
  | [], acc => acc
  | (k, v) :: rest, acc =>
    let ph := ("\x7b\x7b".toList) ++ k.toList ++ ("\x7d\x7d".toList)
    let acc2 := if containsSub ph acc then replaceAll ph (value_to_string v) acc else acc
    render_loop rest acc2

/-- TemplateEngine::render (src/template.rs lines 8-23). -/
def render (template : List Char) (vars : VarList) : RunResult (List Char) :=
  match validate_no_missing_vars (render_loop vars template) with
  | .ok _ => .ok (render_loop vars template)
  | .err e => .err e
  | .panic => .panic

example : render ("Hello \x7b\x7bname\x7d\x7d".toList) [("name", .str ("Alice"))] =
    .ok ("Hello Alice".toList) := by decide

example : render ("Hello \x7b\x7bname\x7d\x7d".toList) [] =
    .err (.templateError ("Missing variable: name")) := by decide

example : render ("Count: \x7b\x7bcount\x7d\x7d".toList) [("count", .num 42)] =
    .ok ("Count: 42".toList) := by decide

/-- EndpointConfig (src/config.rs lines 21-28).  The query-parameter
`HashMap<String, String>` is modelled as its iteration sequence. -/
structure EndpointConfig : Type where
  path : List Char
  method : String
  body_template : Option (List Char)
  query_params : List (String × List Char)
  deriving DecidableEq

/-- ProviderConfig (src/config.rs lines 11-19).  The endpoint map is not
needed by the request pipeline once an endpoint is selected, so only the
fields `RequestBuilder` reads are carried. -/
structure ProviderConfig : Type where
  base_url : List Char
  headers : List (String × List Char)
  timeout : Option Nat
  deriving DecidableEq

/-- RequestBuilder (src/request.rs lines 14-22).  The `reqwest::Client`
field is replaced by passing the transport explicitly to `send`; the
retry delay's magnitude never influences control flow, so it is a bare
number of milliseconds. -/
structure RequestBuilder : Type where
  provider_config : ProviderConfig
  endpoint_config : EndpointConfig
  vars : VarList
  max_retries : Nat
  retry_delay : Nat
  custom_headers : List (String × String)

/-- HTTP methods accepted by parse_method. -/
inductive HttpMethod : Type
  | get
  | post
  | put
  | delete
  | patch
  | head
  | options
  deriving DecidableEq

/-- parse_method (src/client.rs lines 59-70).  Rust's `to_uppercase` is
applied per character; on the ASCII alphabet the comparisons range over,
this agrees with `Char.toUpper`, mapped over the character list so the
definition stays kernel-computable. -/
def parse_method (m : String) : Except CallixError HttpMethod :=
  match String.mk (m.toList.map Char.toUpper) with
  | "GET" => .ok .get
  | "POST" => .ok .post
  | "PUT" => .ok .put
  | "DELETE" => .ok .delete
  | "PATCH" => .ok .patch
  | "HEAD" => .ok .head
  | "OPTIONS" => .ok .options
  | _ => .error (.invalidMethod m)

/-- One query parameter's value (src/request.rs lines 110-113): render
the value template, falling back to the raw template text when rendering
returns an error (`unwrap_or_else(|_| v.clone())`).  A panic inside
`render` is not caught by `unwrap_or_else` and propagates. -/
def render_query_param (vars : VarList) (v : List Char) : RunResult (List Char) :=
  match render v vars with
  | .ok s => .ok s
  | .err _ => .ok v
  | .panic => .panic

/-- The query-parameter map/collect of build_url (src/request.rs lines
105-115): each pair becomes `key=value`. -/
def render_query_params (vars : VarList) :
    List (String × List Char) → RunResult (List (List Char))
  | [] => .ok []
  | (k, v) :: rest =>
    match render_query_param vars v with
    | .panic => .panic
    | .err e => .err e
    | .ok value =>
      match render_query_params vars rest with
      | .panic => .panic
      | .err e => .err e
      | .ok ps => .ok ((k.toList ++ '=' :: value) :: ps)

/-- RequestBuilder::build_url (src/request.rs lines 101-122). -/
def build_url (b : RequestBuilder) : RunResult (List Char) :=
  match render b.endpoint_config.path b.vars with
  | .panic => .panic
  | .err e => .err e
  | .ok path =>
    let url := b.provider_config.base_url ++ path
    if b.endpoint_config.query_params.isEmpty then .ok url
    else
      match render_query_params b.vars b.endpoint_config.query_params with
      | .panic => .panic
      | .err e => .err e
      | .ok params => .ok (url ++ '?' :: List.intercalate (['&']) params)

/-- The provider default-header loop of execute_request (src/request.rs
lines 83-86): each header's template value is rendered; failures
propagate. -/
def render_headers (vars : VarList) :
    List (String × List Char) → RunResult (List (String × List Char))
  | [] => .ok []
  | (k, t) :: rest =>
    match render t vars with
    | .panic => .panic
    | .err e => .err e
    | .ok v =>
      match render_headers vars rest with
      | .panic => .panic
      | .err e => .err e
      | .ok hs => .ok ((k, v) :: hs)

/-- The fully assembled request handed to the transport: method, URL,
header sequence in the order the source adds them, and optional body.
reqwest's `RequestBuilder::header` appends to the underlying `HeaderMap`
(`HeaderMap::append`), so repeated keys keep every value; the header list
therefore preserves duplicates and insertion order. -/
structure RequestDescriptor : Type where
  method : HttpMethod
  url : List Char
  headers : List (String × List Char)
  body : Option (List Char)
  deriving DecidableEq

/-- The assembly portion of RequestBuilder::execute_request
(src/request.rs lines 77-95), in source order: URL, method, provider
default headers (rendered), caller-supplied headers, then the optional
body.  If this returns an error, `execute_request` returns it before the
transport is consulted. -/
def assembleRequest (b : RequestBuilder) : RunResult RequestDescriptor :=
  match build_url b with
  | .panic => .panic
  | .err e => .err e
  | .ok url =>
    match parse_method b.endpoint_config.method with
    | .error e => .err e
    | .ok m =>
      match render_headers b.vars b.provider_config.headers with
      | .panic => .panic
      | .err e => .err e
      | .ok provHeaders =>
        let headers := provHeaders ++ b.custom_headers.map fun kv => (kv.1, kv.2.toList)
        match b.endpoint_config.body_template with
        | none => .ok ⟨m, url, headers, none⟩
        | some t =>
          match render t b.vars with
          | .panic => .panic
          | .err e => .err e
          | .ok body => .ok ⟨m, url, headers, some body⟩

/-- CallixResponse (src/response.rs): for this layer only the fact that a
transport-level response arrived matters; its status is retained. -/
structure CallixResponse : Type where
  status : Nat
  deriving DecidableEq

/-- The per-attempt transport: attempt index to reqwest outcome (the
descriptor sent is identical on every attempt, so an oracle indexed by
the attempt number captures every transport behaviour).  A `reqwest`
error is identified by its message. -/
abbrev Transport := Nat → Except String CallixResponse

/-- RequestBuilder::execute_request (src/request.rs lines 77-99):
assemble, then send; a transport error is converted by `?` through
`From<reqwest::Error>` into `CallixError::HttpError`. -/
def execute_request (b : RequestBuilder) (transport : Transport) (attempt : Nat) :
    RunResult CallixResponse :=
  match assembleRequest b with
  | .panic => .panic
  | .err e => .err e
  | .ok _ =>
    match transport attempt with
    | .error msg => .err (.httpError msg)
    | .ok r => .ok r

/-- The retry loop of RequestBuilder::send (src/request.rs lines 60-75),
with `remaining = max_retries - attempt` as the structural measure (the
source guard `attempt < max_retries` holds exactly when `remaining > 0`).
Returns the result together with the number of `execute_request` calls
made and the number of `sleep(retry_delay)` delays awaited.  The source's
final `last_error.unwrap_or(MaxRetriesExceeded)` line is unreachable:
the iteration at `attempt = max_retries` always returns. -/
def send_loop (b : RequestBuilder) (transport : Transport) (attempt : Nat) :
    Nat → RunResult CallixResponse × Nat × Nat
  | 0 =>
    match execute_request b transport attempt with
    | .ok r => (.ok r, 1, 0)
    | .err e => (.err e, 1, 0)
    | .panic => (.panic, 1, 0)
  | remaining + 1 =>
    match execute_request b transport attempt with
    | .ok r => (.ok r, 1, 0)
    | .err _ =>
      let next := send_loop b transport (attempt + 1) remaining
      (next.1, next.2.1 + 1, next.2.2 + 1)
    | .panic => (.panic, 1, 0)

/-- RequestBuilder::send (src/request.rs lines 60-75). -/
def send (b : RequestBuilder) (transport : Transport) :
    RunResult CallixResponse × Nat × Nat :=
  send_loop b transport 0 b.max_retries

/-! ### Basic lemmas about the string primitives -/

theorem startsWith_iff (p : List Char) : ∀ s : List Char,
    startsWith p s = true ↔ ∃ r, s = p ++ r := by
  induction p with
  | nil =>
    intro s
    simp [startsWith]
  | cons a ps ih =>
    intro s
    cases s with
    | nil =>
      simp [startsWith]
    | cons c cs =>
      simp only [startsWith, Bool.and_eq_true, beq_iff_eq, ih, List.cons_append]
      constructor
      · rintro ⟨rfl, r, rfl⟩
        exact ⟨r, rfl⟩
      · rintro ⟨r, hr⟩
        injection hr with h1 h2
        exact ⟨h1.symm, r, h2⟩

theorem containsSub_iff (p : List Char) : ∀ s : List Char,
    containsSub p s = true ↔ ∃ l r, s = l ++ p ++ r := by
  intro s
  induction s with
  | nil =>
    simp only [containsSub, List.isEmpty_iff]
    constructor
    · rintro rfl
      exact ⟨[], [], rfl⟩
    · rintro ⟨l, r, hr⟩
      rcases List.append_eq_nil.1 hr.symm with ⟨h1, h2⟩
      exact (List.append_eq_nil.1 h1).2
  | cons c cs ih =>
    simp only [containsSub, Bool.or_eq_true, startsWith_iff, ih]
    constructor
    · rintro (⟨r, hr⟩ | ⟨l, r, hr⟩)
      · exact ⟨[], r, by simpa using hr⟩
      · exact ⟨c :: l, r, by rw [List.cons_append, List.cons_append, hr]⟩
    · rintro ⟨l, r, hr⟩
      cases l with
      | nil =>
        left
        exact ⟨r, by simpa using hr⟩
      | cons x xs =>
        right
        rw [List.cons_append, List.cons_append] at hr
        injection hr with h1 h2
        exact ⟨xs, r, by rw [h2]⟩

/-- Substring occurrence is inherited by prefixes of the pattern. -/
theorem containsSub_of_append (p q s : List Char)
    (h : containsSub (p ++ q) s = true) : containsSub p s = true := by
  rcases (containsSub_iff _ _).1 h with ⟨l, r, rfl⟩
  exact (containsSub_iff _ _).2 ⟨l, q ++ r, by simp⟩

theorem containsSub_append_left (p x y : List Char)
    (h : containsSub p y = true) : containsSub p (x ++ y) = true := by
  rcases (containsSub_iff _ _).1 h with ⟨l, r, rfl⟩
  exact (containsSub_iff _ _).2 ⟨x ++ l, r, by simp⟩

theorem containsSub_self_append (p r : List Char) :
    containsSub p (p ++ r) = true :=
  (containsSub_iff _ _).2 ⟨[], r, by simp⟩

/-! ### Replacement step lemmas.

`replaceAll` is a fuel-structured definition; these two lemmas recover the
two reduction steps of the Rust scan, after which the fuel never needs to
be mentioned again. -/

theorem replaceAllFuel_congr (pat rep : List Char) :
    ∀ fuel1 fuel2 s, s.length ≤ fuel1 → s.length ≤ fuel2 →
      replaceAllFuel pat rep fuel1 s = replaceAllFuel pat rep fuel2 s := by
  intro fuel1
  induction fuel1 with
  | zero =>
    intro fuel2 s h1 _
    rw [List.length_eq_zero.1 (Nat.le_zero.1 h1)]
    cases fuel2 <;> rfl
  | succ f ihf =>
    intro fuel2 s h1 h2
    cases s with
    | nil => cases fuel2 <;> rfl
    | cons c rest =>
      cases fuel2 with
      | zero => simp at h2
      | succ g =>
        have hr : rest.length ≤ f := by simp at h1; omega
        have hg : rest.length ≤ g := by simp at h2; omega
        by_cases hsw : startsWith pat (c :: rest) = true
        · simp only [replaceAllFuel, hsw, if_true]
          exact congrArg (rep ++ ·)
            (ihf g _ (by simp only [List.length_drop]; omega)
              (by simp only [List.length_drop]; omega))
        · rw [Bool.not_eq_true] at hsw
          simp only [replaceAllFuel, hsw, Bool.false_eq_true, if_false]
          exact congrArg (c :: ·) (ihf g rest hr hg)

theorem replaceAll_cons_neg (pat rep : List Char) (c : Char) (rest : List Char)
    (h : startsWith pat (c :: rest) = false) :
    replaceAll pat rep (c :: rest) = c :: replaceAll pat rep rest := by
  unfold replaceAll
  simp only [List.length_cons, replaceAllFuel, h, Bool.false_eq_true, if_false]

theorem replaceAll_cons_pos (pat rep : List Char) (c : Char) (rest : List Char)
    (h : startsWith pat (c :: rest) = true) :
    replaceAll pat rep (c :: rest) =
      rep ++ replaceAll pat rep (rest.drop (pat.length - 1)) := by
  unfold replaceAll
  simp only [List.length_cons, replaceAllFuel, h, if_true]
  exact congrArg (rep ++ ·)
    (replaceAllFuel_congr pat rep rest.length _ _
      (by simp only [List.length_drop]; omega) (le_refl _))

/-! ### Claims about the template engine that need no heavy machinery -/

/-- Rendering a template with no opening delimiter never substitutes
anything: the loop leaves the text unchanged. -/
theorem render_loop_id (vars : VarList) (t : List Char)
    (h : containsSub ("\x7b\x7b".toList) t = false) : render_loop vars t = t := by
  induction vars with
  | nil => rfl
  | cons kv rest ih =>
    obtain ⟨k, v⟩ := kv
    have hph : containsSub (("\x7b\x7b".toList) ++ k.toList ++ ("\x7d\x7d".toList)) t = false := by
      cases hc : containsSub (("\x7b\x7b".toList) ++ k.toList ++ ("\x7d\x7d".toList)) t
      · rfl
      · have := containsSub_of_append ("\x7b\x7b".toList) (k.toList ++ ("\x7d\x7d".toList)) t
          (by simpa using hc)
        rw [this] at h
        cases h
    simp only [render_loop, hph, Bool.false_eq_true, if_false]
    exact ih

theorem validate_ok_of_no_open (t : List Char)
    (h : containsSub ("\x7b\x7b".toList) t = false) :
    validate_no_missing_vars t = .ok () := by
  unfold validate_no_missing_vars
  rw [h]
  rfl

/-- C10: a template containing no opening delimiter renders to itself,
for every variable mapping, regardless of stray closing braces. -/
theorem C10_no_open_renders_identity (t : List Char) (vars : VarList)
    (h : containsSub ("\x7b\x7b".toList) t = false) :
    render t vars = .ok t := by
  unfold render
  rw [render_loop_id vars t h, validate_ok_of_no_open t h]

/-- Witness for C10 at a concrete template containing stray closing
braces and a bound variable. -/
theorem C10_no_open_renders_identity_witness :
    containsSub ("\x7b\x7b".toList) ("hello \x7d\x7d \x7d".toList) = false ∧
    render ("hello \x7d\x7d \x7d".toList) [("x", .str ("1"))] =
      .ok ("hello \x7d\x7d \x7d".toList) :=
  ⟨by decide, C10_no_open_renders_identity _ _ (by decide)⟩

/-- C3: the claim says render never panics; on the template consisting of
a closing delimiter followed by an unbound placeholder, the
missing-variable validation slices the text from after the first opening
delimiter to the first closing delimiter, which lies before it, and the
process aborts.  This theorem evaluates the code at that failing input. -/
theorem C3_render_panics_when_close_precedes_open :
    render ("\x7d\x7d \x7b\x7bx\x7d\x7d".toList) [] = .panic := by decide

/-- C4 counterexample: a template holding an unterminated opening
delimiter and no closing delimiter anywhere renders successfully with the
literal braces passed through, instead of failing with a missing-variable
error as the claim states. -/
theorem C4_counterexample :
    render ("\x7b\x7bx".toList) [] = .ok ("\x7b\x7bx".toList) ∧
    render ("\x7b\x7bx".toList) [] ≠
      .err (.templateError ("Missing variable: x")) := by decide

/-- C4 amended: rendering fails with a missing-variable error only when
the post-substitution text contains both delimiters; when the text
contains no closing delimiter, render returns it unchanged, passing any
unterminated opening braces through silently. -/
theorem C4_amended_no_close_passes_through (t : List Char) (vars : VarList)
    (h : containsSub ("\x7d\x7d".toList) (render_loop vars t) = false) :
    render t vars = .ok (render_loop vars t) := by
  unfold render validate_no_missing_vars
  rw [h]
  simp

/-- Witness for the amended C4 at the concrete unterminated template. -/
theorem C4_amended_no_close_passes_through_witness :
    containsSub ("\x7d\x7d".toList) (render_loop [("y", .str ("v"))] ("\x7b\x7bx".toList)) = false ∧
    render ("\x7b\x7bx".toList) [("y", .str ("v"))] = .ok ("\x7b\x7bx".toList) :=
  ⟨by decide,
    (C4_amended_no_close_passes_through ("\x7b\x7bx".toList) [("y", .str ("v"))]
      (by decide)).trans (by decide)⟩

/-- C6 counterexample: a placeholder written with internal whitespace is
not normalized by trimming; with the variable "name" bound, rendering
fails with a missing-variable error naming the untrimmed text instead of
substituting the bound value as the claim states. -/
theorem C6_counterexample :
    render ("\x7b\x7b name \x7d\x7d".toList) [("name", .str ("v"))] =
      .err (.templateError ("Missing variable:  name ")) ∧
    render ("\x7b\x7b name \x7d\x7d".toList) [("name", .str ("v"))] ≠
      .ok ("v".toList) := by decide

/-- C6 amended: placeholder matching is exact, with no trimming: the
whitespace-containing placeholder is satisfied precisely by a binding
whose key includes the whitespace, and a binding for the trimmed name
leaves it unsubstituted, producing a missing-variable error that names
the untrimmed text. -/
theorem C6_amended_exact_match_no_trim :
    render ("\x7b\x7b name \x7d\x7d".toList) [(" name ", .str ("v"))] = .ok ("v".toList) ∧
    render ("\x7b\x7b name \x7d\x7d".toList) [("name", .str ("v"))] =
      .err (.templateError ("Missing variable:  name ")) := by decide

/-- C5 counterexample: two variable mappings with identical contents
(permutations with distinct keys) yield a success for one iteration order
and a missing-variable error for the other, because the value bound to
"a" itself contains placeholder text that a later substitution rewrites
only if "b" is processed after "a". -/
theorem C5_counterexample :
    List.Perm [("a", Value.str ("\x7b\x7bb\x7d\x7d")), ("b", Value.str ("2"))]
      [("b", Value.str ("2")), ("a", Value.str ("\x7b\x7bb\x7d\x7d"))] ∧
    (List.map Prod.fst
      [("a", Value.str ("\x7b\x7bb\x7d\x7d")), ("b", Value.str ("2"))]).Nodup ∧
    render ("\x7b\x7ba\x7d\x7d".toList)
      [("a", Value.str ("\x7b\x7bb\x7d\x7d")), ("b", Value.str ("2"))] =
      .ok ("2".toList) ∧
    render ("\x7b\x7ba\x7d\x7d".toList)
      [("b", Value.str ("2")), ("a", Value.str ("\x7b\x7bb\x7d\x7d"))] =
      .err (.templateError ("Missing variable: b")) := by
  refine ⟨?_, by decide, by decide, by decide⟩
  exact List.Perm.swap _ _ _

/-! ### Concrete configurations shared by the request-pipeline claims -/

/-- A provider with no default headers. -/
def plainProvider : ProviderConfig := ⟨"https://t".toList, [], none⟩

/-- A builder whose endpoint method is not in the accepted set, so that
assembly fails deterministically with InvalidMethod. -/
def invalidMethodBuilder : RequestBuilder :=
  ⟨plainProvider, ⟨"/x".toList, "TRACE", none, []⟩, [], 1, 1000, []⟩

/-- A builder whose endpoint path references the unbound variable p. -/
def pathMissingBuilder : RequestBuilder :=
  ⟨plainProvider, ⟨"/\x7b\x7bp\x7d\x7d".toList, "GET", none, []⟩, [], 0, 1000, []⟩

/-- A builder whose provider default header references the unbound
variable h. -/
def headerMissingBuilder : RequestBuilder :=
  ⟨⟨"https://t".toList, [("Auth", "\x7b\x7bh\x7d\x7d".toList)], none⟩,
    ⟨"/x".toList, "GET", none, []⟩, [], 0, 1000, []⟩

/-- A builder whose body template references the unbound variable b. -/
def bodyMissingBuilder : RequestBuilder :=
  ⟨plainProvider, ⟨"/x".toList, "POST", some ("\x7b\x7bb\x7d\x7d".toList), []⟩,
    [], 0, 1000, []⟩

/-- A builder whose single query parameter references the unbound
variable x. -/
def missingQueryBuilder : RequestBuilder :=
  ⟨plainProvider, ⟨"/x".toList, "GET", none, [("q", "\x7b\x7bx\x7d\x7d".toList)]⟩,
    [], 0, 1000, []⟩

/-- A well-formed builder with the retry budget of the C8 scenario. -/
def retriesBuilder : RequestBuilder :=
  ⟨plainProvider, ⟨"/x".toList, "GET", none, []⟩, [], 3, 1000, []⟩

/-- A builder whose provider default header and caller-supplied header
share the key X-Key. -/
def collidingHeadersBuilder : RequestBuilder :=
  ⟨⟨"https://t".toList, [("X-Key", "prov".toList)], none⟩,
    ⟨"/x".toList, "GET", none, []⟩, [], 0, 1000, [("X-Key", "cust")]⟩

/-- A transport that fails every attempt, tagging the error with the
attempt number. -/
def failTransport : Transport := fun n => .error (toString n)

/-- A transport that succeeds on every attempt. -/
def okTransport : Transport := fun _ => .ok ⟨200⟩

/-! ### C1: whether assembly errors are retried -/

/-- C1 counterexample: with an invalid HTTP method and maxRetries = 1,
send makes two attempts and waits one retry delay before surfacing the
assembly error, instead of returning it immediately after the first
attempt with no delay as the claim states. -/
theorem C1_counterexample :
    send invalidMethodBuilder failTransport =
      (.err (.invalidMethod ("TRACE")), 2, 1) ∧
    (send invalidMethodBuilder failTransport).2 ≠ (1, 0) := by decide

/-- C1 amended: the retry loop does not distinguish assembly errors from
transport errors; when assembly fails deterministically with error e,
send re-attempts it maxRetries times, waiting the retry delay between
consecutive attempts, and returns e only after maxRetries + 1 attempts. -/
theorem C1_amended_assembly_errors_are_retried (b : RequestBuilder)
    (transport : Transport) (e : CallixError)
    (h : assembleRequest b = .err e) :
    send b transport = (.err e, b.max_retries + 1, b.max_retries) := by
  have hexec : ∀ a, execute_request b transport a = .err e := by
    intro a
    unfold execute_request
    rw [h]
  have key : ∀ remaining attempt,
      send_loop b transport attempt remaining = (.err e, remaining + 1, remaining) := by
    intro remaining
    induction remaining with
    | zero =>
      intro attempt
      simp [send_loop, hexec]
    | succ n ih =>
      intro attempt
      simp [send_loop, hexec, ih]
  exact key b.max_retries 0

/-- Witness for the amended C1 at the invalid-method builder. -/
theorem C1_amended_assembly_errors_are_retried_witness :
    assembleRequest invalidMethodBuilder = .err (.invalidMethod ("TRACE")) ∧
    send invalidMethodBuilder failTransport =
      (.err (.invalidMethod ("TRACE")), 2, 1) :=
  ⟨by decide,
    C1_amended_assembly_errors_are_retried invalidMethodBuilder failTransport _
      (by decide)⟩

/-! ### C2: which assembly failures abort before the transport -/

/-- C2 counterexample: a missing variable in a query-parameter template
does not make assembly fail; the raw template text is used as the value
and the request is sent (here, successfully). -/
theorem C2_counterexample :
    render ("\x7b\x7bx\x7d\x7d".toList) [] =
      .err (.templateError ("Missing variable: x")) ∧
    assembleRequest missingQueryBuilder =
      .ok ⟨.get, "https://t/x?q=\x7b\x7bx\x7d\x7d".toList, [], none⟩ ∧
    execute_request missingQueryBuilder okTransport 0 = .ok ⟨200⟩ := by decide

/-- C2 amended: a missing variable in the path, a provider default
header, or the body template aborts assembly with the Template Engine's
missing-variable error, and a failed assembly returns that error without
consulting the transport; a missing variable in a query-parameter
template is swallowed instead: the raw template text is used as the
parameter value and the request is sent. -/
theorem C2_amended_query_params_fall_back :
    (∀ (b : RequestBuilder) (e : CallixError),
      render b.endpoint_config.path b.vars = .err e →
      ∀ (transport : Transport) (attempt : Nat),
        execute_request b transport attempt = .err e) ∧
    (∀ (b : RequestBuilder) (e : CallixError) (transport : Transport) (attempt : Nat),
      assembleRequest b = .err e → execute_request b transport attempt = .err e) ∧
    assembleRequest headerMissingBuilder =
      .err (.templateError ("Missing variable: h")) ∧
    assembleRequest bodyMissingBuilder =
      .err (.templateError ("Missing variable: b")) ∧
    assembleRequest missingQueryBuilder =
      .ok ⟨.get, "https://t/x?q=\x7b\x7bx\x7d\x7d".toList, [], none⟩ := by
  refine ⟨?_, ?_, by decide, by decide, by decide⟩
  · intro b e h transport attempt
    simp [execute_request, assembleRequest, build_url, h]
  · intro b e transport attempt h
    simp [execute_request, h]

/-- Witness for the amended C2: the universally quantified conjuncts
applied at a builder whose path template has an unbound variable. -/
theorem C2_amended_query_params_fall_back_witness :
    execute_request pathMissingBuilder failTransport 0 =
      .err (.templateError ("Missing variable: p")) :=
  C2_amended_query_params_fall_back.1 pathMissingBuilder _ (by decide)
    failTransport 0

/-! ### C8: attempt counts, delay placement, and the final error -/

/-- C8 counterexample: with maxRetries = 3 and an always-failing
transport, send does make 4 attempts with 3 delays, but the final result
is the last transport failure itself, not the MaxRetriesExceeded
(retries-exhausted) error the claim names. -/
theorem C8_counterexample :
    send retriesBuilder failTransport = (.err (.httpError ("3")), 4, 3) ∧
    (send retriesBuilder failTransport).1 ≠ .err .maxRetriesExceeded := by decide

/-- The counting invariant of the retry loop: at least one and at most
remaining + 1 attempts, and always exactly one fewer delay than
attempts. -/
theorem send_loop_counts (b : RequestBuilder) (transport : Transport) :
    ∀ remaining attempt,
      1 ≤ (send_loop b transport attempt remaining).2.1 ∧
      (send_loop b transport attempt remaining).2.1 ≤ remaining + 1 ∧
      (send_loop b transport attempt remaining).2.2 =
        (send_loop b transport attempt remaining).2.1 - 1 := by
  intro remaining
  induction remaining with
  | zero =>
    intro attempt
    cases hexec : execute_request b transport attempt <;> simp [send_loop, hexec]
  | succ n ih =>
    intro attempt
    cases hexec : execute_request b transport attempt with
    | ok r => simp [send_loop, hexec]
    | panic => simp [send_loop, hexec]
    | err e =>
      have h := ih (attempt + 1)
      simp only [send_loop, hexec]
      refine ⟨by omega, by omega, by omega⟩

/-- The first success stops the retry loop wherever it occurs: when the
attempts at offsets below i all fail and the attempt at offset i
succeeds, the loop returns that response after exactly i + 1 attempts
and i delays, making no further attempt. -/
theorem send_loop_first_success (b : RequestBuilder) (transport : Transport) :
    ∀ (i attempt remaining : Nat) (r : CallixResponse), i ≤ remaining →
      (∀ n, n < i → ∃ e, execute_request b transport (attempt + n) = .err e) →
      execute_request b transport (attempt + i) = .ok r →
      send_loop b transport attempt remaining = (.ok r, i + 1, i) := by
  intro i
  induction i with
  | zero =>
    intro attempt remaining r _ _ hok
    rw [Nat.add_zero] at hok
    cases remaining <;> simp [send_loop, hok]
  | succ j ih =>
    intro attempt remaining r hle hfail hok
    cases remaining with
    | zero => omega
    | succ rem =>
      rcases hfail 0 (Nat.succ_pos j) with ⟨e, herr⟩
      rw [Nat.add_zero] at herr
      have hnext := ih (attempt + 1) rem r (by omega)
        (fun n hn => by
          rcases hfail (n + 1) (by omega) with ⟨e2, he2⟩
          exact ⟨e2, by rw [show attempt + 1 + n = attempt + (n + 1) from by omega]
                        exact he2⟩)
        (by rw [show attempt + 1 + j = attempt + (j + 1) from by omega]
            exact hok)
      simp [send_loop, herr, hnext]

/-- C8 amended: send makes between 1 and maxRetries + 1 attempts, the
delay count is always exactly one less than the attempt count (so the
delay is applied only between consecutive attempts and never after the
final one), the first transport success — at whichever attempt it occurs
— stops further attempts, the result being that response after exactly
i + 1 attempts and i delays when the first i attempts failed, and with
maxRetries = 3 and an always-failing transport exactly 4 attempts and 3
delays occur — the final result being the last transport failure itself
rather than a retries-exhausted wrapper. -/
theorem C8_amended_retry_counting (b : RequestBuilder) (transport : Transport) :
    (1 ≤ (send b transport).2.1 ∧ (send b transport).2.1 ≤ b.max_retries + 1) ∧
    (send b transport).2.2 = (send b transport).2.1 - 1 ∧
    (∀ (i : Nat) (r : CallixResponse), i ≤ b.max_retries →
      (∀ n, n < i → ∃ e, execute_request b transport n = .err e) →
      execute_request b transport i = .ok r →
      send b transport = (.ok r, i + 1, i)) ∧
    (∀ msg : Nat → String, b.max_retries = 3 →
      (∀ n, execute_request b transport n = .err (.httpError (msg n))) →
      send b transport = (.err (.httpError (msg 3)), 4, 3)) := by
  have hc := send_loop_counts b transport b.max_retries 0
  refine ⟨⟨hc.1, hc.2.1⟩, hc.2.2, ?_, ?_⟩
  · intro i r hle hfail hok
    unfold send
    exact send_loop_first_success b transport i 0 b.max_retries r hle
      (fun n hn => by
        rcases hfail n hn with ⟨e, he⟩
        exact ⟨e, by rw [Nat.zero_add]; exact he⟩)
      (by rw [Nat.zero_add]; exact hok)
  · intro msg hmax hfail
    unfold send
    rw [hmax]
    simp [send_loop, hfail]

/-- A transport that fails on the first two attempts and succeeds from
the third on: the spec's fails-twice-then-succeeds scenario. -/
def failTwiceTransport : Transport :=
  fun n => if n < 2 then .error (toString n) else .ok ⟨200⟩

/-- Witness for the amended C8: the fails-twice-then-succeeds scenario
(first success at attempt 2 gives exactly 3 attempts and 2 delays) and
the always-failing scenario, both at maxRetries = 3. -/
theorem C8_amended_retry_counting_witness :
    send retriesBuilder failTwiceTransport = (.ok ⟨200⟩, 3, 2) ∧
    send retriesBuilder failTransport = (.err (.httpError ("3")), 4, 3) := by
  have ha : assembleRequest retriesBuilder = .ok ⟨.get, "https://t/x".toList, [], none⟩ := by
    decide
  constructor
  · exact (C8_amended_retry_counting retriesBuilder failTwiceTransport).2.2.1 2 ⟨200⟩
      (by decide)
      (fun n hn => ⟨.httpError (toString n), by
        simp [execute_request, ha, failTwiceTransport, hn]⟩)
      (by decide)
  · have h := (C8_amended_retry_counting retriesBuilder failTransport).2.2.2
      (fun n => toString n) rfl
    have hfail : ∀ n, execute_request retriesBuilder failTransport n =
        .err (.httpError (toString n)) := by
      intro n
      simp [execute_request, ha, failTransport]
    exact (h hfail).trans (by decide)

/-! ### C9: header precedence on key collision -/

/-- C9 counterexample: when a caller-supplied header shares its key with
a provider default header, the assembled request carries both values
(reqwest's header builder appends); the provider's value is still sent,
contrary to the claim that the caller's value replaces it. -/
theorem C9_counterexample :
    assembleRequest collidingHeadersBuilder =
      .ok ⟨.get, "https://t/x".toList,
        [("X-Key", "prov".toList), ("X-Key", "cust".toList)], none⟩ ∧
    assembleRequest collidingHeadersBuilder ≠
      .ok ⟨.get, "https://t/x".toList, [("X-Key", "cust".toList)], none⟩ := by decide

/-- C9 amended: caller-supplied headers do not replace provider default
headers on key collision; the assembled header sequence is the rendered
provider headers followed by all caller-supplied headers, so on a
collision both values are present, the caller's after the provider's. -/
theorem C9_amended_headers_are_appended (b : RequestBuilder)
    (d : RequestDescriptor) (hs : List (String × List Char))
    (h : assembleRequest b = .ok d)
    (hr : render_headers b.vars b.provider_config.headers = .ok hs) :
    d.headers = hs ++ b.custom_headers.map fun kv => (kv.1, kv.2.toList) := by
  unfold assembleRequest at h
  cases hbu : build_url b
  case err e => simp [hbu] at h
  case panic => simp [hbu] at h
  case ok url =>
    cases hpm : parse_method b.endpoint_config.method
    case error e => simp [hbu, hpm] at h
    case ok m =>
      cases hbt : b.endpoint_config.body_template
      case none =>
        simp only [hbu, hpm, hr, hbt, RunResult.ok.injEq] at h
        rw [← h]
      case some t =>
        cases hrb : render t b.vars
        case err e => simp [hbu, hpm, hr, hbt, hrb] at h
        case panic => simp [hbu, hpm, hr, hbt, hrb] at h
        case ok body =>
          simp only [hbu, hpm, hr, hbt, hrb, RunResult.ok.injEq] at h
          rw [← h]

/-- Witness for the amended C9 at the colliding-headers builder. -/
theorem C9_amended_headers_are_appended_witness :
    (RequestDescriptor.mk .get ("https://t/x".toList)
        [("X-Key", "prov".toList), ("X-Key", "cust".toList)] none).headers =
      [("X-Key", "prov".toList)] ++
        [("X-Key", ("cust" : String).toList)] :=
  C9_amended_headers_are_appended collidingHeadersBuilder _ _
    (by decide) (by decide)

/-! ### How the replacement scan moves over structured text.

These lemmas characterise `replaceAll` on text built from brace-free
literal runs and exact placeholders; they drive the amended C5 and C7. -/

/-- The exact placeholder string the render loop builds for a key. -/
def phStr (k : List Char) : List Char :=
  ("\x7b\x7b".toList) ++ k ++ ("\x7d\x7d".toList)

theorem phStr_cons (k : List Char) :
    phStr k = '\x7b' :: '\x7b' :: (k ++ ('\x7d' :: '\x7d' :: [])) := rfl

theorem startsWith_append_self (p t : List Char) :
    startsWith p (p ++ t) = true :=
  (startsWith_iff _ _).2 ⟨t, rfl⟩

/-- The scan steps over a character that cannot begin the pattern. -/
theorem replaceAll_append_of_no_open (p' rep : List Char) :
    ∀ (s t : List Char), (∀ c ∈ s, c ≠ '\x7b') →
      replaceAll ('\x7b' :: p') rep (s ++ t) =
        s ++ replaceAll ('\x7b' :: p') rep t := by
  intro s
  induction s with
  | nil =>
    intro t _
    simp
  | cons c cs ih =>
    intro t hs
    have hc : c ≠ '\x7b' := hs c (List.mem_cons_self _ _)
    have hbe : ('\x7b' == c) = false := beq_eq_false_iff_ne.2 (Ne.symm hc)
    have hsw : startsWith ('\x7b' :: p') (c :: (cs ++ t)) = false := by
      simp [startsWith, hbe]
    rw [List.cons_append, replaceAll_cons_neg _ _ _ _ hsw,
      ih t fun x hx => hs x (List.mem_cons_of_mem _ hx)]
    simp

/-- The scan consumes an exact occurrence of the pattern. -/
theorem replaceAll_append_self_head (p : Char) (ps rep t : List Char) :
    replaceAll (p :: ps) rep ((p :: ps) ++ t) = rep ++ replaceAll (p :: ps) rep t := by
  have hsw : startsWith (p :: ps) (p :: (ps ++ t)) = true :=
    startsWith_append_self (p :: ps) t
  rw [List.cons_append, replaceAll_cons_pos _ _ _ _ hsw]
  congr 2
  simp [List.drop_left]

/-- Two distinct closer-free keys never match each other's closing
position. -/
theorem startsWith_keys_mismatch :
    ∀ (k k2 t : List Char), '\x7d' ∉ k → '\x7d' ∉ k2 → k ≠ k2 →
      startsWith (k ++ ('\x7d' :: '\x7d' :: []))
        (k2 ++ ('\x7d' :: '\x7d' :: t)) = false := by
  intro k
  induction k with
  | nil =>
    intro k2 t _ hk2 hne
    cases k2 with
    | nil => exact absurd rfl hne
    | cons c cs =>
      have hc : c ≠ '\x7d' := fun h => hk2 (by simp [h])
      have hbe : ('\x7d' == c) = false := beq_eq_false_iff_ne.2 (Ne.symm hc)
      simp [startsWith, hbe]
  | cons a ks ih =>
    intro k2 t hk hk2 hne
    cases k2 with
    | nil =>
      have ha : a ≠ '\x7d' := fun h => hk (by simp [h])
      have hbe : (a == '\x7d') = false := beq_eq_false_iff_ne.2 ha
      simp [startsWith, hbe]
    | cons c cs =>
      by_cases hac : a = c
      · subst hac
        have h1 : '\x7d' ∉ ks := fun h => hk (List.mem_cons_of_mem _ h)
        have h2 : '\x7d' ∉ cs := fun h => hk2 (List.mem_cons_of_mem _ h)
        have h3 : ks ≠ cs := fun h => hne (by rw [h])
        simp [startsWith, List.cons_append, ih cs t h1 h2 h3]
      · have hbe : (a == c) = false := beq_eq_false_iff_ne.2 hac
        simp [startsWith, hbe]

/-- A pattern starting with the opener cannot match inside an opener-free
key followed by a closer. -/
theorem startsWith_open_at_key (q k2 u : List Char) (hk2 : '\x7b' ∉ k2) :
    startsWith ('\x7b' :: q) (k2 ++ ('\x7d' :: u)) = false := by
  cases k2 with
  | nil =>
    have h : ('\x7b' == '\x7d') = false := by decide
    simp [startsWith, h]
  | cons c cs =>
    have hc : c ≠ '\x7b' := fun h => hk2 (by simp [h])
    have hbe : ('\x7b' == c) = false := beq_eq_false_iff_ne.2 (Ne.symm hc)
    simp [startsWith, hbe]

theorem startsWith_open_close (q w : List Char) :
    startsWith ('\x7b' :: q) ('\x7d' :: w) = false := by
  have h : ('\x7b' == '\x7d') = false := by decide
  simp [startsWith, h]

/-- The scan walks through a whole placeholder of a different brace-free
key without matching anywhere inside it. -/
theorem replaceAll_ph_skip (k k2 rep t : List Char)
    (hk : '\x7d' ∉ k) (hk2o : '\x7b' ∉ k2) (hk2c : '\x7d' ∉ k2) (hne : k ≠ k2) :
    replaceAll (phStr k) rep (phStr k2 ++ t) =
      phStr k2 ++ replaceAll (phStr k) rep t := by
  have e2 : phStr k2 ++ t = '\x7b' :: '\x7b' :: (k2 ++ ('\x7d' :: '\x7d' :: t)) := by
    rw [phStr_cons]
    simp
  have h0 : startsWith (phStr k)
      ('\x7b' :: '\x7b' :: (k2 ++ ('\x7d' :: '\x7d' :: t))) = false := by
    rw [phStr_cons]
    simp only [startsWith, List.cons_append, beq_self_eq_true, Bool.true_and]
    exact startsWith_keys_mismatch k k2 t hk hk2c hne
  have h1 : startsWith (phStr k) ('\x7b' :: (k2 ++ ('\x7d' :: '\x7d' :: t))) = false := by
    rw [phStr_cons]
    simp only [startsWith, List.cons_append, beq_self_eq_true, Bool.true_and]
    exact startsWith_open_at_key _ k2 ('\x7d' :: t) hk2o
  rw [e2, replaceAll_cons_neg _ _ _ _ h0, replaceAll_cons_neg _ _ _ _ h1,
    phStr_cons k, replaceAll_append_of_no_open _ _ k2 _
      (fun c hc hcc => hk2o (hcc ▸ hc)),
    replaceAll_cons_neg _ _ _ _ (startsWith_open_close _ _),
    replaceAll_cons_neg _ _ _ _ (startsWith_open_close _ _),
    phStr_cons k2]
  simp

/-! ### Structured templates.

The amended C5 and C7 quantify over templates built as an interleaving of
brace-free literal runs and exact placeholders; `Seg` is that shape and
`flattenSegs` produces the template string the source operates on. -/

/-- One segment of a structured template. -/
inductive Seg : Type
  | lit (s : List Char)
  | ph (k : List Char)
  deriving DecidableEq

/-- The template string a segment list denotes. -/
def flattenSegs : List Seg → List Char
  | [] => []
  | .lit s :: rest => s ++ flattenSegs rest
  | .ph k :: rest => phStr k ++ flattenSegs rest

/-- Text free of both brace characters. -/
def braceFreeL (s : List Char) : Prop := '\x7b' ∉ s ∧ '\x7d' ∉ s

instance (s : List Char) : Decidable (braceFreeL s) := by
  unfold braceFreeL
  infer_instance

/-- Well-formedness of a segment: its payload is brace-free. -/
def WfSeg : Seg → Prop
  | .lit s => braceFreeL s
  | .ph k => braceFreeL k

instance (seg : Seg) : Decidable (WfSeg seg) := by
  cases seg <;> (unfold WfSeg; infer_instance)

/-- Substituting one key in a segment. -/
def substSeg (k rep : List Char) : Seg → Seg
  | .lit s => .lit s
  | .ph k2 => if k2 = k then .lit rep else .ph k2

/-- The effect of the whole render loop on a segment list. -/
def substAll : VarList → List Seg → List Seg
  | [], segs => segs
  | (k, v) :: rest, segs =>
    substAll rest (segs.map (substSeg k.toList (value_to_string v)))

/-- Replacing one key's placeholder over a flattened well-formed segment
list substitutes exactly that key's placeholder segments and nothing
else. -/
theorem replaceAll_flatten (k rep : List Char) (hk : braceFreeL k) :
    ∀ segs : List Seg, (∀ seg ∈ segs, WfSeg seg) →
      replaceAll (phStr k) rep (flattenSegs segs) =
        flattenSegs (segs.map (substSeg k rep)) := by
  intro segs
  induction segs with
  | nil =>
    intro _
    rfl
  | cons seg rest ih =>
    intro hw
    have hwseg : WfSeg seg := hw seg (List.mem_cons_self _ _)
    have hwrest : ∀ s ∈ rest, WfSeg s := fun s hs => hw s (List.mem_cons_of_mem _ hs)
    cases seg with
    | lit s =>
      have hs : ∀ c ∈ s, c ≠ '\x7b' := fun c hc hcc => hwseg.1 (hcc ▸ hc)
      rw [flattenSegs, phStr_cons k, replaceAll_append_of_no_open _ _ s _ hs,
        ← phStr_cons k, ih hwrest]
      rfl
    | ph k2 =>
      by_cases hkk : k2 = k
      · subst hkk
        rw [flattenSegs, phStr_cons k2,
          replaceAll_append_self_head '\x7b' ('\x7b' :: (k2 ++ ('\x7d' :: '\x7d' :: [])))
            rep (flattenSegs rest),
          ← phStr_cons k2, ih hwrest]
        simp [substSeg, flattenSegs]
      · rw [flattenSegs,
          replaceAll_ph_skip k k2 rep _ hk.2 hwseg.1 hwseg.2 (fun h => hkk h.symm),
          ih hwrest]
        simp [substSeg, hkk, flattenSegs]

/-- A placeholder segment's key occurs as a substring of the flattened
template. -/
theorem containsSub_flatten_of_mem (k : List Char) :
    ∀ segs : List Seg, Seg.ph k ∈ segs →
      containsSub (phStr k) (flattenSegs segs) = true := by
  intro segs
  induction segs with
  | nil =>
    intro h
    cases h
  | cons seg rest ih =>
    intro h
    rcases List.mem_cons.1 h with h1 | h2
    · rw [← h1, flattenSegs]
      exact containsSub_self_append _ _
    · cases seg with
      | lit s =>
        rw [flattenSegs]
        exact containsSub_append_left _ s _ (ih h2)
      | ph k2 =>
        rw [flattenSegs]
        exact containsSub_append_left _ (phStr k2) _ (ih h2)

/-- Mapping a function that fixes every member is the identity. -/
theorem map_eq_self_of_mem {α : Type} {f : α → α} :
    ∀ {l : List α}, (∀ a ∈ l, f a = a) → l.map f = l := by
  intro l
  induction l with
  | nil =>
    intro _
    rfl
  | cons x xs ih =>
    intro h
    rw [List.map_cons, h x (List.mem_cons_self _ _),
      ih fun a ha => h a (List.mem_cons_of_mem _ ha)]

/-- The render loop on a flattened well-formed template is exactly
segmentwise substitution, provided keys and substituted values are
brace-free. -/
theorem render_loop_flatten :
    ∀ (vars : VarList) (segs : List Seg), (∀ seg ∈ segs, WfSeg seg) →
      (∀ kv ∈ vars, braceFreeL (Prod.fst kv).toList) →
      (∀ kv ∈ vars, braceFreeL (value_to_string (Prod.snd kv))) →
      render_loop vars (flattenSegs segs) = flattenSegs (substAll vars segs) := by
  intro vars
  induction vars with
  | nil =>
    intro segs _ _ _
    rfl
  | cons kv rest ih =>
    intro segs hw hk hv
    obtain ⟨k, v⟩ := kv
    have hkh : braceFreeL k.toList := hk (k, v) (List.mem_cons_self _ _)
    have hvh : braceFreeL (value_to_string v) := hv (k, v) (List.mem_cons_self _ _)
    have hkt : ∀ kv ∈ rest, braceFreeL (Prod.fst kv).toList :=
      fun kv h => hk kv (List.mem_cons_of_mem _ h)
    have hvt : ∀ kv ∈ rest, braceFreeL (value_to_string (Prod.snd kv)) :=
      fun kv h => hv kv (List.mem_cons_of_mem _ h)
    have hwmap : ∀ seg ∈ segs.map (substSeg k.toList (value_to_string v)), WfSeg seg := by
      intro seg hseg
      rcases List.mem_map.1 hseg with ⟨s0, hs0, rfl⟩
      cases s0 with
      | lit s => exact hw (.lit s) hs0
      | ph k2 =>
        by_cases hkk : k2 = k.toList
        · simp only [substSeg, hkk, if_true]
          exact hvh
        · simp only [substSeg, hkk, if_false]
          exact hw (.ph k2) hs0
    simp only [render_loop]
    rw [show (("\x7b\x7b".toList) ++ k.toList ++ ("\x7d\x7d".toList)) = phStr k.toList from rfl]
    by_cases hc : containsSub (phStr k.toList) (flattenSegs segs) = true
    · rw [if_pos hc, replaceAll_flatten k.toList (value_to_string v) hkh segs hw,
        ih _ hwmap hkt hvt]
      rfl
    · have hmap : segs.map (substSeg k.toList (value_to_string v)) = segs := by
        apply map_eq_self_of_mem
        intro s0 hs0
        cases s0 with
        | lit s => rfl
        | ph k2 =>
          by_cases hkk : k2 = k.toList
          · subst hkk
            exact absurd (containsSub_flatten_of_mem _ segs hs0) hc
          · show (if k2 = k.toList then Seg.lit (value_to_string v) else Seg.ph k2) =
              Seg.ph k2
            rw [if_neg hkk]
      rw [if_neg hc,
        show substAll ((k, v) :: rest) segs =
          substAll rest (segs.map (substSeg k.toList (value_to_string v))) from rfl,
        hmap]
      exact ih segs hw hkt hvt

/-- Mapping two functions that agree on every member gives equal lists. -/
theorem map_eq_map_of_mem {α β : Type} {f g : α → β} :
    ∀ {l : List α}, (∀ a ∈ l, f a = g a) → l.map f = l.map g := by
  intro l
  induction l with
  | nil =>
    intro _
    rfl
  | cons x xs ih =>
    intro h
    rw [List.map_cons, List.map_cons, h x (List.mem_cons_self _ _),
      ih fun a ha => h a (List.mem_cons_of_mem _ ha)]

/-- First-binding lookup in the variable sequence; under distinct keys
this is the HashMap's unique binding for the key. -/
def lookupVar (k : List Char) : VarList → Option Value
  | [] => none
  | (k2, v) :: rest => if k2.toList = k then some v else lookupVar k rest

/-- Substitution of a segment by the final bindings, independent of the
processing order. -/
def substOne (vars : VarList) : Seg → Seg
  | .lit s => .lit s
  | .ph k =>
    match lookupVar k vars with
    | some v => .lit (value_to_string v)
    | none => .ph k

theorem substAll_eq_map : ∀ (vars : VarList) (segs : List Seg),
    substAll vars segs = segs.map (substOne vars) := by
  intro vars
  induction vars with
  | nil =>
    intro segs
    show segs = segs.map (substOne [])
    symm
    apply map_eq_self_of_mem
    intro a _
    cases a with
    | lit s => rfl
    | ph k => rfl
  | cons kv rest ih =>
    intro segs
    obtain ⟨k, v⟩ := kv
    show substAll rest (segs.map (substSeg k.toList (value_to_string v))) = _
    rw [ih, List.map_map]
    apply map_eq_map_of_mem
    intro seg _
    cases seg with
    | lit s => rfl
    | ph k2 =>
      show substOne rest (substSeg k.toList (value_to_string v) (Seg.ph k2)) =
        substOne ((k, v) :: rest) (Seg.ph k2)
      by_cases hkk : k2 = k.toList
      · have h1 : substSeg k.toList (value_to_string v) (Seg.ph k2) =
            Seg.lit (value_to_string v) := by
          show (if k2 = k.toList then Seg.lit (value_to_string v) else Seg.ph k2) = _
          rw [if_pos hkk]
        have h2 : lookupVar k2 ((k, v) :: rest) = some v := by
          show (if k.toList = k2 then some v else lookupVar k2 rest) = some v
          rw [if_pos hkk.symm]
        rw [h1]
        show Seg.lit (value_to_string v) = substOne ((k, v) :: rest) (Seg.ph k2)
        simp only [substOne]
        rw [h2]
      · have h1 : substSeg k.toList (value_to_string v) (Seg.ph k2) = Seg.ph k2 := by
          show (if k2 = k.toList then Seg.lit (value_to_string v) else Seg.ph k2) = _
          rw [if_neg hkk]
        have h2 : lookupVar k2 ((k, v) :: rest) = lookupVar k2 rest := by
          show (if k.toList = k2 then some v else lookupVar k2 rest) = _
          rw [if_neg fun h => hkk h.symm]
        rw [h1]
        show substOne rest (Seg.ph k2) = substOne ((k, v) :: rest) (Seg.ph k2)
        simp only [substOne]
        rw [h2]

/-- Under distinct keys, first-binding lookup is invariant under
permutation of the binding sequence. -/
theorem lookupVar_perm (k : List Char) {l1 l2 : VarList} (hp : l1.Perm l2) :
    (l1.map Prod.fst).Nodup → lookupVar k l1 = lookupVar k l2 := by
  induction hp with
  | nil =>
    intro _
    rfl
  | cons x hp ih =>
    intro hnd
    obtain ⟨kx, vx⟩ := x
    show (if kx.toList = k then some vx else lookupVar k _) =
      (if kx.toList = k then some vx else lookupVar k _)
    by_cases hkx : kx.toList = k
    · rw [if_pos hkx, if_pos hkx]
    · rw [if_neg hkx, if_neg hkx]
      refine ih ?_
      simp only [List.map_cons] at hnd
      exact (List.nodup_cons.1 hnd).2
  | swap x y l =>
    intro hnd
    obtain ⟨kx, vx⟩ := x
    obtain ⟨ky, vy⟩ := y
    simp only [List.map_cons] at hnd
    have hne : ky ≠ kx := by
      intro he
      exact (List.nodup_cons.1 hnd).1 (by simp [he])
    show (if ky.toList = k then some vy else
        if kx.toList = k then some vx else lookupVar k l) =
      (if kx.toList = k then some vx else
        if ky.toList = k then some vy else lookupVar k l)
    by_cases h1 : ky.toList = k
    · by_cases h2 : kx.toList = k
      · exact absurd (String.ext (h1.trans h2.symm)) hne
      · rw [if_pos h1, if_neg h2, if_pos h1]
    · by_cases h2 : kx.toList = k
      · rw [if_neg h1, if_pos h2, if_pos h2]
      · rw [if_neg h1, if_neg h2, if_neg h2, if_neg h1]
  | trans hp1 _ ih1 ih2 =>
    intro hnd
    exact (ih1 hnd).trans (ih2 (((hp1.map Prod.fst).nodup_iff).1 hnd))

/-- C5 amended: render is a pure function of the template and the
iteration sequence, and is invariant under the mapping's iteration order
whenever the template is a well-formed interleaving of brace-free literal
text and placeholders and every key and substituted value is brace-free;
the counterexample shows the order can matter otherwise, when a
substituted value itself contains placeholder text. -/
theorem C5_amended_order_invariant_when_brace_free (segs : List Seg)
    (l1 l2 : VarList)
    (hw : ∀ seg ∈ segs, WfSeg seg)
    (hk1 : ∀ kv ∈ l1, braceFreeL (Prod.fst kv).toList)
    (hv1 : ∀ kv ∈ l1, braceFreeL (value_to_string (Prod.snd kv)))
    (hnd : (l1.map Prod.fst).Nodup) (hp : l1.Perm l2) :
    render (flattenSegs segs) l1 = render (flattenSegs segs) l2 := by
  have hk2 : ∀ kv ∈ l2, braceFreeL (Prod.fst kv).toList :=
    fun kv h => hk1 kv (hp.mem_iff.2 h)
  have hv2 : ∀ kv ∈ l2, braceFreeL (value_to_string (Prod.snd kv)) :=
    fun kv h => hv1 kv (hp.mem_iff.2 h)
  have hmaps : segs.map (substOne l1) = segs.map (substOne l2) := by
    apply map_eq_map_of_mem
    intro seg _
    cases seg with
    | lit s => rfl
    | ph k =>
      show substOne l1 (Seg.ph k) = substOne l2 (Seg.ph k)
      simp only [substOne]
      rw [lookupVar_perm k hp hnd]
  unfold render
  rw [render_loop_flatten l1 segs hw hk1 hv1, render_loop_flatten l2 segs hw hk2 hv2,
    substAll_eq_map, substAll_eq_map, hmaps]

/-- Witness for the amended C5: a concrete well-formed template rendered
against two iteration orders of the same two-entry mapping. -/
theorem C5_amended_order_invariant_when_brace_free_witness :
    render (flattenSegs [Seg.lit ("Hi ".toList), Seg.ph ("a".toList)])
        [("a", Value.str ("x")), ("b", Value.str ("y"))] =
      render (flattenSegs [Seg.lit ("Hi ".toList), Seg.ph ("a".toList)])
        [("b", Value.str ("y")), ("a", Value.str ("x"))] := by
  apply C5_amended_order_invariant_when_brace_free
  · intro seg hseg
    rcases List.mem_cons.1 hseg with h | h
    · rw [h]
      decide
    · rcases List.mem_cons.1 h with h2 | h2
      · rw [h2]
        decide
      · cases h2
  · intro kv hkv
    rcases List.mem_cons.1 hkv with h | h
    · rw [h]
      decide
    · rcases List.mem_cons.1 h with h2 | h2
      · rw [h2]
        decide
      · cases h2
  · intro kv hkv
    rcases List.mem_cons.1 hkv with h | h
    · rw [h]
      decide
    · rcases List.mem_cons.1 h with h2 | h2
      · rw [h2]
        decide
      · cases h2
  · decide
  · exact List.Perm.swap _ _ _

/-! ### C7: rendering a fully matched template -/

/-- Brace-free literal segments flatten to brace-free text. -/
theorem flattenSegs_braceFree :
    ∀ segs : List Seg, (∀ seg ∈ segs, ∃ s, seg = Seg.lit s ∧ braceFreeL s) →
      braceFreeL (flattenSegs segs) := by
  intro segs
  induction segs with
  | nil =>
    intro _
    decide
  | cons seg rest ih =>
    intro h
    rcases h seg (List.mem_cons_self _ _) with ⟨s, rfl, hbf⟩
    have hr := ih fun a ha => h a (List.mem_cons_of_mem _ ha)
    rw [flattenSegs]
    constructor
    · simp only [List.mem_append]
      rintro (hm | hm)
      · exact hbf.1 hm
      · exact hr.1 hm
    · simp only [List.mem_append]
      rintro (hm | hm)
      · exact hbf.2 hm
      · exact hr.2 hm

theorem mem_open_of_containsSub (s : List Char)
    (h : containsSub ("\x7b\x7b".toList) s = true) : '\x7b' ∈ s := by
  rcases (containsSub_iff _ _).1 h with ⟨l, r, rfl⟩
  have hmem : '\x7b' ∈ ("\x7b\x7b".toList) := by decide
  exact List.mem_append.2 (Or.inl (List.mem_append.2 (Or.inr hmem)))

theorem mem_close_of_containsSub (s : List Char)
    (h : containsSub ("\x7d\x7d".toList) s = true) : '\x7d' ∈ s := by
  rcases (containsSub_iff _ _).1 h with ⟨l, r, rfl⟩
  have hmem : '\x7d' ∈ ("\x7d\x7d".toList) := by decide
  exact List.mem_append.2 (Or.inl (List.mem_append.2 (Or.inr hmem)))

/-- A successful first-binding lookup comes from some entry of the
sequence. -/
theorem lookupVar_mem (k : List Char) :
    ∀ (vars : VarList) (v : Value), lookupVar k vars = some v →
      ∃ ks, (ks, v) ∈ vars := by
  intro vars
  induction vars with
  | nil =>
    intro v h
    cases h
  | cons kv rest ih =>
    intro v h
    obtain ⟨k2, v2⟩ := kv
    by_cases hk2 : k2.toList = k
    · rw [show lookupVar k ((k2, v2) :: rest) =
          (if k2.toList = k then some v2 else lookupVar k rest) from rfl,
        if_pos hk2] at h
      injection h with h
      exact ⟨k2, by rw [← h]; exact List.mem_cons_self _ _⟩
    · rw [show lookupVar k ((k2, v2) :: rest) =
          (if k2.toList = k then some v2 else lookupVar k rest) from rfl,
        if_neg hk2] at h
      rcases ih v h with ⟨ks, hm⟩
      exact ⟨ks, List.mem_cons_of_mem _ hm⟩

/-- C7 amended: for a template that is a well-formed interleaving of
brace-free literal text and placeholders, with brace-free keys and
rendered values, if every placeholder's key has a binding then render
succeeds, and the output (the segmentwise substitution) contains neither
an opening nor a closing delimiter pair.  The counterexample shows the
original claim fails when a bound value itself contains placeholder
text. -/
theorem C7_amended_matched_brace_free_succeeds (segs : List Seg) (vars : VarList)
    (hw : ∀ seg ∈ segs, WfSeg seg)
    (hk : ∀ kv ∈ vars, braceFreeL (Prod.fst kv).toList)
    (hv : ∀ kv ∈ vars, braceFreeL (value_to_string (Prod.snd kv)))
    (hcover : ∀ k, Seg.ph k ∈ segs → lookupVar k vars ≠ none) :
    render (flattenSegs segs) vars = .ok (flattenSegs (substAll vars segs)) ∧
    containsSub ("\x7b\x7b".toList) (flattenSegs (substAll vars segs)) = false ∧
    containsSub ("\x7d\x7d".toList) (flattenSegs (substAll vars segs)) = false := by
  have hlit : ∀ seg ∈ substAll vars segs, ∃ s, seg = Seg.lit s ∧ braceFreeL s := by
    rw [substAll_eq_map]
    intro seg hseg
    rcases List.mem_map.1 hseg with ⟨s0, hs0, rfl⟩
    cases s0 with
    | lit s => exact ⟨s, rfl, hw _ hs0⟩
    | ph k =>
      cases hlk : lookupVar k vars with
      | none => exact absurd hlk (hcover k hs0)
      | some v =>
        refine ⟨value_to_string v, ?_, ?_⟩
        · simp only [substOne]
          rw [hlk]
        · rcases lookupVar_mem k vars v hlk with ⟨ks, hm⟩
          exact hv (ks, v) hm
  have hbf := flattenSegs_braceFree _ hlit
  have hopen : containsSub ("\x7b\x7b".toList) (flattenSegs (substAll vars segs)) = false := by
    cases hcon : containsSub ("\x7b\x7b".toList) (flattenSegs (substAll vars segs))
    · rfl
    · exact absurd (mem_open_of_containsSub _ hcon) hbf.1
  have hclose : containsSub ("\x7d\x7d".toList) (flattenSegs (substAll vars segs)) = false := by
    cases hcon : containsSub ("\x7d\x7d".toList) (flattenSegs (substAll vars segs))
    · rfl
    · exact absurd (mem_close_of_containsSub _ hcon) hbf.2
  refine ⟨?_, hopen, hclose⟩
  unfold render
  rw [render_loop_flatten vars segs hw hk hv, validate_ok_of_no_open _ hopen]

/-- Witness for the amended C7 at a concrete fully matched template. -/
theorem C7_amended_matched_brace_free_succeeds_witness :
    render (flattenSegs [Seg.lit ("Hi ".toList), Seg.ph ("a".toList)])
        [("a", Value.str ("x"))] =
      .ok (flattenSegs (substAll [("a", Value.str ("x"))]
        [Seg.lit ("Hi ".toList), Seg.ph ("a".toList)])) ∧
    flattenSegs (substAll [("a", Value.str ("x"))]
      [Seg.lit ("Hi ".toList), Seg.ph ("a".toList)]) = "Hi x".toList := by
  refine ⟨?_, by decide⟩
  refine (C7_amended_matched_brace_free_succeeds _ _ ?_ ?_ ?_ ?_).1
  · intro seg hseg
    rcases List.mem_cons.1 hseg with h | h
    · rw [h]
      decide
    · rcases List.mem_cons.1 h with h2 | h2
      · rw [h2]
        decide
      · cases h2
  · intro kv hkv
    rcases List.mem_cons.1 hkv with h | h
    · rw [h]
      decide
    · cases h
  · intro kv hkv
    rcases List.mem_cons.1 hkv with h | h
    · rw [h]
      decide
    · cases h
  · intro k hkm
    rcases List.mem_cons.1 hkm with h | h
    · cases h
    · rcases List.mem_cons.1 h with h2 | h2
      · injection h2 with h3
        subst h3
        intro hnone
        rw [show lookupVar ("a".toList) [("a", Value.str ("x"))] =
            some (Value.str ("x")) from by
          show (if ("a" : String).toList = "a".toList then some (Value.str ("x"))
            else lookupVar ("a".toList) []) = _
          rw [if_pos rfl]] at hnone
        cases hnone
      · cases h2

/-- Modelled from the spec (section 4.2 scanning rule): the text of a
template strictly between a closing delimiter and the scan position,
together with the remainder after that delimiter; `none` when no closing
delimiter follows.  This definition exists only to state the placeholder
inventory the specification describes; the source has no counterpart. -/
def takeUntilClose : List Char → Option (List Char × List Char)
  | [] => none
  | c :: rest =>
    if startsWith ("\x7d\x7d".toList) (c :: rest) then some ([], rest.drop 1)
    else
      match takeUntilClose rest with
      | none => none
      | some (name, rem) => some (c :: name, rem)

/-- Rust `str::trim` on the character list: whitespace removed from both
ends, as the spec's placeholder-name normalization requires. -/
def trimChars (s : List Char) : List Char :=
  ((s.dropWhile Char.isWhitespace).reverse.dropWhile Char.isWhitespace).reverse

/-- Recursion budget form of the spec's placeholder scan; each step
consumes at least one character, so the budget `s.length` used by
`specPlaceholders` never runs out. -/
def specPlaceholdersFuel : Nat → List Char → List (List Char)
  | _, [] => []
  | 0, _ => []
  | fuel + 1, c :: rest =>
    if startsWith ("\x7b\x7b".toList) (c :: rest) then
      match takeUntilClose (rest.drop 1) with
      | none => []
      | some (name, rem) => trimChars name :: specPlaceholdersFuel fuel rem
    else specPlaceholdersFuel fuel rest

/-- Modelled from the spec (section 4.2): the placeholder names of a
template, scanning left to right — a placeholder begins at a literal
opening delimiter and ends at the next closing delimiter, the text
strictly between them, trimmed of surrounding whitespace, being the
name. -/
def specPlaceholders (s : List Char) : List (List Char) :=
  specPlaceholdersFuel s.length s

/-- C7 counterexample: a template whose single placeholder "a" has a
matching entry in the variable set, yet render fails, because the value
bound to "a" itself contains placeholder text that survives substitution
and trips the missing-variable validation. -/
theorem C7_counterexample :
    specPlaceholders ("\x7b\x7ba\x7d\x7d".toList) = ["a".toList] ∧
    lookupVar ("a".toList) [("a", Value.str ("\x7b\x7bb\x7d\x7d"))] =
      some (Value.str ("\x7b\x7bb\x7d\x7d")) ∧
    render ("\x7b\x7ba\x7d\x7d".toList) [("a", Value.str ("\x7b\x7bb\x7d\x7d"))] =
      .err (.templateError ("Missing variable: b")) := by
  refine ⟨by decide, ?_, by decide⟩
  show (if ("a" : String).toList = "a".toList then some (Value.str ("\x7b\x7bb\x7d\x7d"))
    else lookupVar ("a".toList) []) = _
  rw [if_pos rfl]

end Callix
